import Mathlib

/-!
Shallow embedding of the `noop_method_call` lint
(`compiler/rustc_lint/src/noop_method_call.rs`).

The lint's `check_expr` is a linear chain of gates over one expression
node: method-call shape, trait allow-list, substitution guard, instance
resolution, no-op catalog lookup, and a type-identity check, followed by
one diagnostic emission.  The external type-checking engine is modelled
as a record of read-only query functions (`LateContext`); `check_expr`
becomes a pure function returning the list of diagnostics it would emit.
The result lives in `Option`: `none` models the panic of the `elements[0]`
indexing when the argument list is empty, every normal path is `some`.
-/

namespace NoopLint

/-- Source spans, as in `rustc_span`: a half-open byte interval. -/
structure Span where
  lo : Nat
  hi : Nat
deriving DecidableEq

/-- `Span::with_lo`: replace the low end, keep the high end. -/
def Span.with_lo (s : Span) (l : Nat) : Span := { lo := l, hi := s.hi }

/-- Types, as far as the lint inspects them: the `ty::Ref(region, ty, mutbl)`
constructor (matched by the peeling step), generic parameters (what
`needs_subst` detects), and opaque base types standing for everything else. -/
inductive Ty where
  | ref : Nat → Ty → Bool → Ty
  | param : Nat → Ty
  | base : Nat → Ty
deriving DecidableEq

/-- Debug formatting of a type, standing in for the `{:?}` rendering used in
the diagnostic note. -/
def Ty.fmtDebug : Ty → String
  | .ref _ t m => (if m then "&mut " else "&") ++ t.fmtDebug
  | .param n => "P" ++ toString n
  | .base n => "B" ++ toString n

/-- Whether a type still mentions a generic parameter (the `HAS_PARAM` type
flag behind `TypeFoldable::needs_subst`). -/
def Ty.has_param : Ty → Bool
  | .ref _ t _ => t.has_param
  | .param _ => true
  | .base _ => false

/-- `SubstsRef::needs_subst`: some recorded type argument still contains a
placeholder requiring further substitution. -/
def needs_subst (substs : List Ty) : Bool := substs.any Ty.has_param

/-- The identifier of a method-call path segment. -/
structure Ident where
  name : String
deriving DecidableEq

/-- `rustc_hir::PathSegment`, restricted to the field the lint reads. -/
structure PathSegment where
  ident : Ident
deriving DecidableEq

/-- Expression kinds, parameterised by the expression type so the nested
occurrence in the argument list is well-founded.  `methodCall` carries the
path segment, the method-name span, the argument list (receiver first), and
the call span, exactly the four fields of `ExprKind::MethodCall`. -/
inductive ExprKindF (E : Type) where
  | methodCall : PathSegment → Span → List E → Span → ExprKindF E
  | other : ExprKindF E

/-- `rustc_hir::Expr`: a node identity (`hir_id`), a span, and a kind. -/
inductive Expr where
  | mk : Nat → Span → ExprKindF Expr → Expr

/-- The expression kinds the lint distinguishes. -/
abbrev ExprKind := ExprKindF Expr

/-- The `hir_id` used to query the type-checking results. -/
def Expr.hir_id : Expr → Nat
  | .mk h _ _ => h

/-- The expression's source span. -/
def Expr.span : Expr → Span
  | .mk _ s _ => s

/-- The expression's kind. -/
def Expr.kind : Expr → ExprKind
  | .mk _ _ k => k

/-- `rustc_hir::def::DefKind`, restricted to the case the lint matches. -/
inductive DefKind where
  | AssocFn
  | other : Nat → DefKind
deriving DecidableEq

/-- The interned symbols the lint mentions: the allow-listed trait tag and
the no-op catalog tag, plus arbitrary other symbols. -/
inductive Sym where
  | Clone
  | noop_method_clone
  | other : Nat → Sym
deriving DecidableEq

/-- A resolved `ty::Instance`; the lint only reads its `def_id`. -/
structure Instance where
  def_id : Nat
deriving DecidableEq

/-- The read-only capability handle: the queries `check_expr` makes against
the type checker, the diagnostic-item registry and the instance resolver.
Def ids, param envs and hir ids are opaque naturals. -/
structure LateContext where
  type_dependent_def : Nat → Option (DefKind × Nat)
  trait_of_item : Nat → Option Nat
  is_diagnostic_item : Sym → Nat → Bool
  node_substs : Nat → List Ty
  param_env : Nat → Nat
  resolve : Nat → Nat → List Ty → Except Unit (Option Instance)
  expr_ty : Nat → Ty
  expr_ty_adjusted : Nat → Ty

/-- One emitted lint: primary span, message, labelled span with its text,
and the explanatory note. -/
structure Diagnostic where
  span : Span
  message : String
  label_span : Span
  label : String
  note : String
deriving DecidableEq

/-- The allow-list of traits of interest: `[sym::Clone]`. -/
def allowList : List Sym := [Sym.Clone]

/-- The no-op catalog iterated at the end of `check_expr`:
`[(sym::noop_method_clone, false)]`, each entry a diagnostic tag paired
with its peel-one-reference flag. -/
def catalog : List (Sym × Bool) := [(Sym.noop_method_clone, false)]

/-- The receiver-type adjustment of the type-identity check: strip one
layer of reference indirection when the catalog entry asks for it
(`ty::Ref(_, ty, _) if *peel_ref => ty`), otherwise keep the type. -/
def peelTy (peel_ref : Bool) (t : Ty) : Ty :=
  match t with
  | Ty.ref _ inner _ => if peel_ref then inner else t
  | _ => t

/-- The lint message: `call to `.{}()` on a reference in this situation
does nothing` with the method name spliced in. -/
def messageText (method : String) : String :=
  "call to `." ++ method ++ "()` on a reference in this situation does nothing"

/-- The diagnostic note naming the receiver type and the method twice. -/
def noteText (receiver_ty : Ty) (method : String) : String :=
  "the type `" ++ receiver_ty.fmtDebug ++ "` which `" ++ method ++
    "` is being called on is the same as the type returned from `" ++ method ++
    "`, so the method call does not do anything and can be removed"

/-- The `for (s, peel_ref) in [...]` loop at the end of `check_expr`.  On a
catalog hit it reads `elements[0]` (`none` models the panic when the list is
empty), peels the receiver type if asked, compares it against the adjusted
expression type (`return`ing the diagnostics emitted so far on mismatch),
and otherwise emits one diagnostic whose span is the call span with its low
end moved to the end of the receiver's span. -/
def catalogLoop (cx : LateContext) (e : Expr) (call : PathSegment)
    (elements : List Expr) (i : Instance) :
    List (Sym × Bool) → Option (List Diagnostic)
  | [] => some []
  | (s, peel_ref) :: rest =>
    if cx.is_diagnostic_item s i.def_id then
      match elements with
      | [] => none
      | receiver :: _ =>
        let receiver_ty := peelTy peel_ref (cx.expr_ty receiver.hir_id)
        let expr_ty := cx.expr_ty_adjusted e.hir_id
        if receiver_ty ≠ expr_ty then
          some []
        else
          let method := call.ident.name
          let span := e.span.with_lo receiver.span.hi
          let d : Diagnostic :=
            { span := span
              message := messageText method
              label_span := span
              label := "unnecessary method call"
              note := noteText receiver_ty method }
          (catalogLoop cx e call elements i rest).map (fun ds => d :: ds)
    else
      catalogLoop cx e call elements i rest

/-- `NoopMethodCall::check_expr`: the full gate chain.  Non-method-call
nodes, non-associated-function targets, targets outside the allow-list,
calls whose substs still need substitution, and failed or empty resolution
all return with no diagnostic; otherwise the no-op catalog is walked. -/
def check_expr (cx : LateContext) (expr : Expr) : Option (List Diagnostic) :=
  match expr.kind with
  | ExprKindF.methodCall call _ elements _ =>
    match cx.type_dependent_def expr.hir_id with
    | some (DefKind.AssocFn, did) =>
      match cx.trait_of_item did with
      | some trait_id =>
        if allowList.any (fun s => cx.is_diagnostic_item s trait_id) then
          let substs := cx.node_substs expr.hir_id
          if needs_subst substs then
            some []
          else
            match cx.resolve (cx.param_env trait_id) did substs with
            | Except.ok (some i) => catalogLoop cx expr call elements i catalog
            | _ => some []
        else
          some []
      | none => some []
    | _ => some []
  | ExprKindF.other => some []

/-- The lint pass struct declared by `declare_lint_pass!`: it has no
fields, hence no internal mutable state. -/
structure NoopMethodCall where
deriving DecidableEq

/-- The stateful entry point as the driver sees it: `&mut self` threaded
through, diagnostics as output. -/
def check_expr_st (self : NoopMethodCall) (cx : LateContext) (e : Expr) :
    NoopMethodCall × Option (List Diagnostic) :=
  (self, check_expr cx e)

/-- A concrete capability handle on which every gate passes: node 1 is the
call, its target is associated function 10 of trait 20 (tagged `Clone`),
the substs are concrete, resolution yields instance 30 (tagged
`noop_method_clone`), and the receiver (node 2) has the same reference
type as the adjusted call result. -/
def exCx : LateContext where
  type_dependent_def := fun h => if h = 1 then some (DefKind.AssocFn, 10) else none
  trait_of_item := fun d => if d = 10 then some 20 else none
  is_diagnostic_item := fun s d =>
    match s with
    | Sym.Clone => d == 20
    | Sym.noop_method_clone => d == 30
    | Sym.other _ => false
  node_substs := fun _ => [Ty.ref 0 (Ty.base 0) false]
  param_env := fun t => t
  resolve := fun _ _ _ => Except.ok (some ⟨30⟩)
  expr_ty := fun h => if h = 2 then Ty.ref 0 (Ty.base 0) false else Ty.base 99
  expr_ty_adjusted := fun _ => Ty.ref 0 (Ty.base 0) false

/-- The receiver expression of the example call: node 2, spanning 0..4. -/
def exReceiver : Expr := Expr.mk 2 ⟨0, 4⟩ ExprKindF.other

/-- The example call expression: node 1, spanning 0..10, a `.clone()`
method call with the receiver as sole argument. -/
def exExpr : Expr :=
  Expr.mk 1 ⟨0, 10⟩ (ExprKindF.methodCall ⟨⟨"clone"⟩⟩ ⟨5, 10⟩ [exReceiver] ⟨0, 10⟩)

/-- `exCx` with the call target moved to trait 21, which carries no
`Clone` diagnostic tag: the allow-list gate rejects it. -/
def exCxOffList : LateContext :=
  { exCx with trait_of_item := fun d => if d = 10 then some 21 else none }

/-- `exCx` with a type argument that is still a generic parameter: the
substitution guard rejects it. -/
def exCxGeneric : LateContext :=
  { exCx with node_substs := fun _ => [Ty.param 0] }

/-- `exCx` with a failing instance resolver. -/
def exCxResolveErr : LateContext :=
  { exCx with resolve := fun _ _ _ => Except.error () }

/-- `exCx` with a resolver that succeeds but returns no instance. -/
def exCxResolveNone : LateContext :=
  { exCx with resolve := fun _ _ _ => Except.ok none }

/-- `exCx` with an adjusted call-result type different from the receiver
type: the type-identity judge rejects it. -/
def exCxMismatch : LateContext :=
  { exCx with expr_ty_adjusted := fun _ => Ty.base 7 }

/-- `exCx` with a non-reference receiver type equal to the adjusted result
type: the lint still fires and still says "on a reference". -/
def exCxNonRef : LateContext :=
  { exCx with
    expr_ty := fun h => if h = 2 then Ty.base 5 else Ty.base 99
    expr_ty_adjusted := fun _ => Ty.base 5 }

/-- The example call with an empty argument list: on the catalog-hit path
the `elements[0]` read is out of bounds. -/
def exExprNoArgs : Expr :=
  Expr.mk 1 ⟨0, 10⟩ (ExprKindF.methodCall ⟨⟨"clone"⟩⟩ ⟨5, 10⟩ [] ⟨0, 10⟩)

/-- The diagnostic emitted on the example call. -/
def exDiag : Diagnostic :=
  { span := ⟨4, 10⟩
    message := messageText "clone"
    label_span := ⟨4, 10⟩
    label := "unnecessary method call"
    note := noteText (Ty.ref 0 (Ty.base 0) false) "clone" }

/-- Peeling with the flag off is the identity on every type, reference
types included. -/
theorem peelTy_false (t : Ty) : peelTy false t = t := by
  cases t <;> simp [peelTy]

/-- If the catalog walk produced a nonempty diagnostic list, some catalog
entry matched the resolved instance, the argument list was nonempty, and
the (peeled) receiver type equalled the adjusted expression type. -/
theorem catalogLoop_emits_only_if (cx : LateContext) (e : Expr)
    (call : PathSegment) (elements : List Expr) (i : Instance)
    (l : List (Sym × Bool)) :
    ∀ ds : List Diagnostic, catalogLoop cx e call elements i l = some ds →
      ds ≠ [] →
      ∃ s peel_ref, (s, peel_ref) ∈ l ∧
        cx.is_diagnostic_item s i.def_id = true ∧
        ∃ receiver rest, elements = receiver :: rest ∧
          peelTy peel_ref (cx.expr_ty receiver.hir_id) =
            cx.expr_ty_adjusted e.hir_id := by
  induction l with
  | nil =>
    intro ds h hne
    simp only [catalogLoop, Option.some.injEq] at h
    exact absurd h.symm hne
  | cons hd tl ih =>
    intro ds h hne
    obtain ⟨s, peel_ref⟩ := hd
    cases hdi : cx.is_diagnostic_item s i.def_id with
    | false =>
      simp only [catalogLoop, hdi, Bool.false_eq_true, if_false] at h
      obtain ⟨s', p', hmem, hrest⟩ := ih ds h hne
      exact ⟨s', p', List.mem_cons_of_mem _ hmem, hrest⟩
    | true =>
      simp only [catalogLoop, hdi, if_true] at h
      cases elements with
      | nil => exact absurd h (by simp)
      | cons receiver tl' =>
        by_cases hty : peelTy peel_ref (cx.expr_ty receiver.hir_id) =
            cx.expr_ty_adjusted e.hir_id
        · exact ⟨s, peel_ref, List.mem_cons_self _ _, hdi, receiver, tl', rfl, hty⟩
        · simp only [hty, ne_eq, not_false_eq_true, if_true, Option.some.injEq] at h
          exact absurd h.symm hne

/-- C1: a diagnostic is emitted for a visited expression only if all five
gates hold simultaneously: the call's trait is in the allow-list, the
recorded substs contain no unresolved generic parameter, instance
resolution succeeds with exactly one instance, that instance carries the
no-op diagnostic tag, and the receiver's type (after the catalog-mandated
stripping, here none) equals the call's adjusted result type. -/
theorem check_expr_diag_requires_all_gates (cx : LateContext) (e : Expr)
    (ds : List Diagnostic) (h : check_expr cx e = some ds) (hne : ds ≠ []) :
    ∃ call s1 elements s2 did trait_id i,
      e.kind = ExprKindF.methodCall call s1 elements s2 ∧
      cx.type_dependent_def e.hir_id = some (DefKind.AssocFn, did) ∧
      cx.trait_of_item did = some trait_id ∧
      allowList.any (fun s => cx.is_diagnostic_item s trait_id) = true ∧
      needs_subst (cx.node_substs e.hir_id) = false ∧
      cx.resolve (cx.param_env trait_id) did (cx.node_substs e.hir_id) =
        Except.ok (some i) ∧
      cx.is_diagnostic_item Sym.noop_method_clone i.def_id = true ∧
      ∃ receiver rest, elements = receiver :: rest ∧
        cx.expr_ty receiver.hir_id = cx.expr_ty_adjusted e.hir_id := by
  obtain ⟨hid, sp, k⟩ := e
  cases k with
  | other =>
    simp only [check_expr, Expr.kind, Option.some.injEq] at h
    exact absurd h.symm hne
  | methodCall call ms elements cs =>
    simp only [check_expr, Expr.kind] at h
    refine ⟨call, ms, elements, cs, ?_⟩
    cases htdd : cx.type_dependent_def (Expr.hir_id (Expr.mk hid sp
        (ExprKindF.methodCall call ms elements cs))) with
    | none =>
      simp only [htdd] at h
      simp only [Option.some.injEq] at h
      exact absurd h.symm hne
    | some v =>
      obtain ⟨dk, did⟩ := v
      cases dk with
      | other n =>
        simp only [htdd] at h
        simp only [Option.some.injEq] at h
        exact absurd h.symm hne
      | AssocFn =>
        simp only [htdd] at h
        cases htrait : cx.trait_of_item did with
        | none =>
          simp only [htrait] at h
          simp only [Option.some.injEq] at h
          exact absurd h.symm hne
        | some trait_id =>
          simp only [htrait] at h
          cases hallow : allowList.any (fun s => cx.is_diagnostic_item s trait_id) with
          | false =>
            simp only [hallow, Bool.false_eq_true, if_false, Option.some.injEq] at h
            exact absurd h.symm hne
          | true =>
            simp only [hallow, if_true] at h
            cases hsub : needs_subst (cx.node_substs (Expr.hir_id (Expr.mk hid sp
                (ExprKindF.methodCall call ms elements cs)))) with
            | true =>
              simp only [hsub] at h
              simp only [if_true, Option.some.injEq] at h
              exact absurd h.symm hne
            | false =>
              simp only [hsub] at h
              simp only [Bool.false_eq_true, if_false] at h
              cases hres : cx.resolve (cx.param_env trait_id) did
                  (cx.node_substs (Expr.hir_id (Expr.mk hid sp
                    (ExprKindF.methodCall call ms elements cs)))) with
              | error u =>
                simp only [hres] at h
                simp only [Option.some.injEq] at h
                exact absurd h.symm hne
              | ok oi =>
                cases oi with
                | none =>
                  simp only [hres] at h
                  simp only [Option.some.injEq] at h
                  exact absurd h.symm hne
                | some i =>
                  simp only [hres] at h
                  obtain ⟨s, p, hmem, hdi, receiver, rest, helems, hty⟩ :=
                    catalogLoop_emits_only_if cx _ call elements i catalog ds h hne
                  simp only [catalog, List.mem_singleton, Prod.mk.injEq] at hmem
                  obtain ⟨hs, hp⟩ := hmem
                  subst hs; subst hp
                  rw [peelTy_false] at hty
                  exact ⟨did, trait_id, i, rfl, rfl, htrait, hallow, rfl, hres,
                    hdi, receiver, rest, helems, hty⟩

/-- Closed instance of C1: on the example context the lint fires, and the
theorem's conclusion holds there. -/
theorem check_expr_diag_requires_all_gates_witness :
    check_expr exCx exExpr = some [exDiag] ∧
    ∃ call s1 elements s2 did trait_id i,
      exExpr.kind = ExprKindF.methodCall call s1 elements s2 ∧
      exCx.type_dependent_def exExpr.hir_id = some (DefKind.AssocFn, did) ∧
      exCx.trait_of_item did = some trait_id ∧
      allowList.any (fun s => exCx.is_diagnostic_item s trait_id) = true ∧
      needs_subst (exCx.node_substs exExpr.hir_id) = false ∧
      exCx.resolve (exCx.param_env trait_id) did (exCx.node_substs exExpr.hir_id) =
        Except.ok (some i) ∧
      exCx.is_diagnostic_item Sym.noop_method_clone i.def_id = true ∧
      ∃ receiver rest, elements = receiver :: rest ∧
        exCx.expr_ty receiver.hir_id = exCx.expr_ty_adjusted exExpr.hir_id :=
  ⟨by decide,
    check_expr_diag_requires_all_gates exCx exExpr [exDiag] (by decide) (by decide)⟩

/-- C2: when every gate passes — catalogued no-op instance and receiver
type equal to the adjusted result type — exactly one diagnostic is
emitted, and its primary span runs from the end of the receiver's span to
the end of the whole call expression's span. -/
theorem check_expr_emits_exactly_one (cx : LateContext) (e : Expr)
    (call : PathSegment) (ms : Span) (elements : List Expr) (cs : Span)
    (did trait_id : Nat) (i : Instance) (receiver : Expr) (rest : List Expr)
    (hk : e.kind = ExprKindF.methodCall call ms elements cs)
    (htdd : cx.type_dependent_def e.hir_id = some (DefKind.AssocFn, did))
    (htrait : cx.trait_of_item did = some trait_id)
    (hallow : allowList.any (fun s => cx.is_diagnostic_item s trait_id) = true)
    (hsub : needs_subst (cx.node_substs e.hir_id) = false)
    (hres : cx.resolve (cx.param_env trait_id) did (cx.node_substs e.hir_id) =
      Except.ok (some i))
    (hhit : cx.is_diagnostic_item Sym.noop_method_clone i.def_id = true)
    (helems : elements = receiver :: rest)
    (hty : cx.expr_ty receiver.hir_id = cx.expr_ty_adjusted e.hir_id) :
    ∃ d, check_expr cx e = some [d] ∧
      d.span.lo = receiver.span.hi ∧ d.span.hi = e.span.hi := by
  obtain ⟨hid, sp, k⟩ := e
  simp only [Expr.kind] at hk
  subst hk
  subst helems
  refine ⟨{ span := Span.with_lo sp receiver.span.hi
            message := messageText call.ident.name
            label_span := Span.with_lo sp receiver.span.hi
            label := "unnecessary method call"
            note := noteText (cx.expr_ty receiver.hir_id) call.ident.name },
    ?_, rfl, rfl⟩
  simp only [check_expr, Expr.kind, htdd, htrait, hallow, if_true, hsub,
    Bool.false_eq_true, if_false, hres]
  simp only [catalogLoop, catalog, hhit, if_true, peelTy_false, hty, ne_eq,
    not_true_eq_false, if_false, ite_self]
  simp only [← hty, Option.map, Expr.span]

/-- Closed instance of C2: the example no-op `.clone()` call yields exactly
one diagnostic spanning from the receiver's end (4) to the call's end (10). -/
theorem check_expr_emits_exactly_one_witness :
    ∃ d, check_expr exCx exExpr = some [d] ∧
      d.span.lo = exReceiver.span.hi ∧ d.span.hi = exExpr.span.hi :=
  check_expr_emits_exactly_one exCx exExpr ⟨⟨"clone"⟩⟩ ⟨5, 10⟩ [exReceiver]
    ⟨0, 10⟩ 10 20 ⟨30⟩ exReceiver [] rfl (by decide) (by decide) (by decide)
    (by decide) rfl (by decide) rfl (by decide)

/-- C3: if the call's target is not an associated function of a trait
carrying an allow-listed diagnostic tag, no diagnostic is emitted. -/
theorem check_expr_skips_off_allowlist (cx : LateContext) (e : Expr)
    (hallow : ∀ did trait_id,
      cx.type_dependent_def e.hir_id = some (DefKind.AssocFn, did) →
      cx.trait_of_item did = some trait_id →
      allowList.any (fun s => cx.is_diagnostic_item s trait_id) = false) :
    check_expr cx e = some [] := by
  obtain ⟨hid, sp, k⟩ := e
  cases k with
  | other => rfl
  | methodCall call ms elements cs =>
    simp only [Expr.hir_id] at hallow
    simp only [check_expr, Expr.kind, Expr.hir_id]
    split
    · rename_i did heq
      split
      · rename_i trait_id htrait
        have hf := hallow did trait_id heq htrait
        simp only [hf]
        simp
      · rfl
    · rfl

/-- Closed instance of C3: with the target trait moved off the allow-list,
the example call draws no diagnostic. -/
theorem check_expr_skips_off_allowlist_witness :
    check_expr exCxOffList exExpr = some [] :=
  check_expr_skips_off_allowlist exCxOffList exExpr (by
    intro did trait_id h1 h2
    simp only [exCxOffList, exCx, exExpr, Expr.hir_id] at h1 h2
    norm_num at h1
    subst h1
    norm_num at h2
    subst h2
    decide)

/-- C4: if the substs recorded for the node still contain a generic
parameter, no diagnostic is emitted, whatever the rest of the context. -/
theorem check_expr_skips_generic (cx : LateContext) (e : Expr)
    (hsub : needs_subst (cx.node_substs e.hir_id) = true) :
    check_expr cx e = some [] := by
  obtain ⟨hid, sp, k⟩ := e
  cases k with
  | other => rfl
  | methodCall call ms elements cs =>
    simp only [Expr.hir_id] at hsub
    simp only [check_expr, Expr.kind, Expr.hir_id]
    split
    · rename_i did heq
      split
      · rename_i trait_id htrait
        simp only [hsub]
        simp
      · rfl
    · rfl

/-- Closed instance of C4: a substs list holding a bare generic parameter
makes the example call draw no diagnostic. -/
theorem check_expr_skips_generic_witness :
    needs_subst (exCxGeneric.node_substs exExpr.hir_id) = true ∧
    check_expr exCxGeneric exExpr = some [] :=
  ⟨by decide, check_expr_skips_generic exCxGeneric exExpr (by decide)⟩

/-- C5: if the instance resolver errors out or returns no instance for the
call's method and substs, no diagnostic is emitted. -/
theorem check_expr_skips_unresolved (cx : LateContext) (e : Expr)
    (call : PathSegment) (ms : Span) (elements : List Expr) (cs : Span)
    (did trait_id : Nat)
    (hk : e.kind = ExprKindF.methodCall call ms elements cs)
    (htdd : cx.type_dependent_def e.hir_id = some (DefKind.AssocFn, did))
    (htrait : cx.trait_of_item did = some trait_id)
    (hres : ∀ i : Instance,
      cx.resolve (cx.param_env trait_id) did (cx.node_substs e.hir_id) ≠
        Except.ok (some i)) :
    check_expr cx e = some [] := by
  obtain ⟨hid, sp, k⟩ := e
  simp only [Expr.kind] at hk
  subst hk
  simp only [Expr.hir_id] at htdd hres
  simp only [check_expr, Expr.kind, Expr.hir_id, htdd, htrait]
  cases hr : cx.resolve (cx.param_env trait_id) did (cx.node_substs hid) with
  | error u => simp
  | ok oi =>
    cases oi with
    | none => simp
    | some i => exact absurd hr (hres i)

/-- Closed instance of C5: a failing resolver makes the example call draw
no diagnostic. -/
theorem check_expr_skips_unresolved_witness :
    check_expr exCxResolveErr exExpr = some [] :=
  check_expr_skips_unresolved exCxResolveErr exExpr ⟨⟨"clone"⟩⟩ ⟨5, 10⟩
    [exReceiver] ⟨0, 10⟩ 10 20 rfl (by decide) (by decide)
    (fun i h => Except.noConfusion h)

/-- C6: if the resolved instance is the catalogued no-op but the receiver's
type (after the catalog-mandated stripping, here none) differs from the
call's adjusted result type, no diagnostic is emitted. -/
theorem check_expr_skips_mismatch (cx : LateContext) (e : Expr)
    (call : PathSegment) (ms : Span) (elements : List Expr) (cs : Span)
    (did trait_id : Nat) (i : Instance) (receiver : Expr) (rest : List Expr)
    (hk : e.kind = ExprKindF.methodCall call ms elements cs)
    (htdd : cx.type_dependent_def e.hir_id = some (DefKind.AssocFn, did))
    (htrait : cx.trait_of_item did = some trait_id)
    (hallow : allowList.any (fun s => cx.is_diagnostic_item s trait_id) = true)
    (hsub : needs_subst (cx.node_substs e.hir_id) = false)
    (hres : cx.resolve (cx.param_env trait_id) did (cx.node_substs e.hir_id) =
      Except.ok (some i))
    (hhit : cx.is_diagnostic_item Sym.noop_method_clone i.def_id = true)
    (helems : elements = receiver :: rest)
    (hty : cx.expr_ty receiver.hir_id ≠ cx.expr_ty_adjusted e.hir_id) :
    check_expr cx e = some [] := by
  obtain ⟨hid, sp, k⟩ := e
  obtain ⟨rid, rsp, rk⟩ := receiver
  simp only [Expr.kind] at hk
  subst hk
  subst helems
  simp only [Expr.hir_id] at htdd hsub hres hty
  simp only [check_expr, Expr.kind, Expr.hir_id, htdd, htrait, hallow, if_true,
    hsub, Bool.false_eq_true, if_false, hres]
  simp only [catalogLoop, catalog, hhit, if_true, peelTy_false, Expr.hir_id]
  simp [hty]

/-- Closed instance of C6: with an adjusted result type differing from the
receiver type, the example call draws no diagnostic. -/
theorem check_expr_skips_mismatch_witness :
    exCxMismatch.expr_ty exReceiver.hir_id ≠
      exCxMismatch.expr_ty_adjusted exExpr.hir_id ∧
    check_expr exCxMismatch exExpr = some [] :=
  ⟨by decide,
    check_expr_skips_mismatch exCxMismatch exExpr ⟨⟨"clone"⟩⟩ ⟨5, 10⟩
      [exReceiver] ⟨0, 10⟩ 10 20 ⟨30⟩ exReceiver [] rfl (by decide) (by decide)
      (by decide) (by decide) rfl (by decide) rfl (by decide)⟩

/-- Every run of the gate chain either stops with no diagnostic or hands
over to the catalog walk for some resolved instance. -/
theorem check_expr_shape (cx : LateContext) (e : Expr) :
    check_expr cx e = some [] ∨
    ∃ call ms elements cs i,
      e.kind = ExprKindF.methodCall call ms elements cs ∧
      check_expr cx e = catalogLoop cx e call elements i catalog := by
  obtain ⟨hid, sp, k⟩ := e
  cases k with
  | other => exact Or.inl rfl
  | methodCall call ms elements cs =>
    cases htdd : cx.type_dependent_def hid with
    | none =>
      exact Or.inl (by simp only [check_expr, Expr.kind, Expr.hir_id, htdd])
    | some v =>
      obtain ⟨dk, did⟩ := v
      cases dk with
      | other n =>
        exact Or.inl (by simp only [check_expr, Expr.kind, Expr.hir_id, htdd])
      | AssocFn =>
        cases htrait : cx.trait_of_item did with
        | none =>
          exact Or.inl (by
            simp only [check_expr, Expr.kind, Expr.hir_id, htdd, htrait])
        | some trait_id =>
          cases hallow : allowList.any (fun s => cx.is_diagnostic_item s trait_id) with
          | false =>
            exact Or.inl (by
              simp only [check_expr, Expr.kind, Expr.hir_id, htdd, htrait, hallow]
              try rfl)
          | true =>
            cases hsub : needs_subst (cx.node_substs hid) with
            | true =>
              exact Or.inl (by
                simp only [check_expr, Expr.kind, Expr.hir_id, htdd, htrait,
                  hallow, hsub]
                try rfl)
            | false =>
              cases hres : cx.resolve (cx.param_env trait_id) did (cx.node_substs hid) with
              | error u =>
                exact Or.inl (by
                  simp only [check_expr, Expr.kind, Expr.hir_id, htdd, htrait,
                    hallow, hsub, hres]
                  try rfl)
              | ok oi =>
                cases oi with
                | none =>
                  exact Or.inl (by
                    simp only [check_expr, Expr.kind, Expr.hir_id, htdd, htrait,
                      hallow, hsub, hres]
                    try rfl)
                | some i =>
                  refine Or.inr ⟨call, ms, elements, cs, i, rfl, ?_⟩
                  simp only [check_expr, Expr.kind, Expr.hir_id, htdd, htrait,
                    hallow, hsub, hres]
                  try rfl

/-- Every diagnostic the catalog walk emits carries the standard lint
message built from the call's method name. -/
theorem catalogLoop_message (cx : LateContext) (e : Expr) (call : PathSegment)
    (elements : List Expr) (i : Instance) (l : List (Sym × Bool)) :
    ∀ ds d, catalogLoop cx e call elements i l = some ds → d ∈ ds →
      d.message = messageText call.ident.name := by
  induction l with
  | nil =>
    intro ds d h hd
    simp only [catalogLoop, Option.some.injEq] at h
    subst h
    cases hd
  | cons hd tl ih =>
    intro ds d h hmem
    obtain ⟨s, p⟩ := hd
    cases hdi : cx.is_diagnostic_item s i.def_id with
    | false =>
      simp only [catalogLoop, hdi, Bool.false_eq_true, if_false] at h
      exact ih ds d h hmem
    | true =>
      simp only [catalogLoop, hdi, if_true] at h
      cases elements with
      | nil => cases h
      | cons receiver tl' =>
        by_cases hty : peelTy p (cx.expr_ty receiver.hir_id) =
            cx.expr_ty_adjusted e.hir_id
        · simp only [hty, ne_eq, not_true_eq_false, if_false] at h
          cases hcl : catalogLoop cx e call (receiver :: tl') i tl with
          | none => rw [hcl] at h; cases h
          | some ds' =>
            rw [hcl] at h
            simp only [Option.map, Option.some.injEq] at h
            subst h
            cases hmem with
            | head => rfl
            | tail _ hmem' => exact ih ds' d hcl hmem'
        · simp only [hty, ne_eq, not_false_eq_true, if_true,
            Option.some.injEq] at h
          subst h
          cases hmem

/-- The lint message decomposes around the fixed phrase "on a reference",
whatever the method name. -/
theorem messageText_decomp (m : String) :
    messageText m =
      ("call to `." ++ m ++ "()` ") ++
        ("on a reference" ++ " in this situation does nothing") := by
  simp only [messageText, String.append_assoc]
  congr 1

/-- C7: the pass struct is stateless, so the entry point's diagnostic
output is the same for any two pass states, and running it twice on the
same context and node gives the same diagnostics both times. -/
theorem check_expr_st_deterministic (st st2 : NoopMethodCall)
    (cx : LateContext) (e : Expr) :
    (check_expr_st st cx e).2 = (check_expr_st st2 cx e).2 ∧
    (check_expr_st (check_expr_st st cx e).1 cx e).2 =
      (check_expr_st st cx e).2 :=
  ⟨rfl, rfl⟩

/-- C8: the no-op catalog holds exactly the clone entry with the peel flag
off, and with the flag off the receiver type is compared unstripped — on
reference types as on any other type. -/
theorem catalog_single_entry_no_peel :
    catalog = [(Sym.noop_method_clone, false)] ∧
    (∀ t, peelTy false t = t) ∧
    (∀ r t m, peelTy false (Ty.ref r t m) = Ty.ref r t m) :=
  ⟨rfl, peelTy_false, fun _ _ _ => peelTy_false _⟩

set_option maxRecDepth 4000 in
/-- C9: every emitted diagnostic's message contains the fixed phrase
"on a reference", although no gate checks that the receiver's type is a
reference type: the lint fires with that message on a non-reference
receiver whose type equals the adjusted result type. -/
theorem lint_message_always_reference :
    (∀ cx e ds d, check_expr cx e = some ds → d ∈ ds →
      ∃ pre post, d.message = pre ++ ("on a reference" ++ post)) ∧
    (∃ ds, check_expr exCxNonRef exExpr = some ds ∧ ds ≠ [] ∧
      ∀ r t m, exCxNonRef.expr_ty exReceiver.hir_id ≠ Ty.ref r t m) := by
  constructor
  · intro cx e ds d h hd
    rcases check_expr_shape cx e with hsh | ⟨call, ms, elements, cs, i, _, hsh⟩
    · rw [hsh] at h
      simp only [Option.some.injEq] at h
      subst h
      cases hd
    · rw [hsh] at h
      have hm := catalogLoop_message cx e call elements i catalog ds d h hd
      exact ⟨_, _, hm.trans (messageText_decomp call.ident.name)⟩
  · refine ⟨[{ span := ⟨4, 10⟩
               message := messageText "clone"
               label_span := ⟨4, 10⟩
               label := "unnecessary method call"
               note := noteText (Ty.base 5) "clone" }], by decide, by decide, ?_⟩
    intro r t m h
    simp [exCxNonRef, exCx, exReceiver, Expr.hir_id] at h

/-- Closed instance of C9: the diagnostic emitted on the example call
decomposes around "on a reference". -/
theorem lint_message_always_reference_witness :
    ∃ pre post, exDiag.message = pre ++ ("on a reference" ++ post) :=
  lint_message_always_reference.1 exCx exExpr [exDiag] exDiag
    (by decide) (by decide)

/-- With a nonempty argument list the catalog walk never hits the
out-of-bounds receiver read. -/
theorem catalogLoop_isSome (cx : LateContext) (e : Expr) (call : PathSegment)
    (receiver : Expr) (rest : List Expr) (i : Instance)
    (l : List (Sym × Bool)) :
    (catalogLoop cx e call (receiver :: rest) i l).isSome = true := by
  induction l with
  | nil => rfl
  | cons hd tl ih =>
    obtain ⟨s, p⟩ := hd
    cases hdi : cx.is_diagnostic_item s i.def_id with
    | false =>
      simp only [catalogLoop, hdi, Bool.false_eq_true, if_false]
      exact ih
    | true =>
      simp only [catalogLoop, hdi, if_true]
      by_cases hty : peelTy p (cx.expr_ty receiver.hir_id) =
          cx.expr_ty_adjusted e.hir_id
      · simp only [hty, ne_eq, not_true_eq_false, if_false]
        cases hcl : catalogLoop cx e call (receiver :: rest) i tl with
        | none =>
          rw [hcl] at ih
          simp at ih
        | some ds => simp [hcl]
      · simp only [hty, ne_eq, not_false_eq_true, if_true]
        rfl

/-- C10: the receiver is read as the head of the argument list with no
bounds check: every run on a node whose method-call argument list is
nonempty returns normally, while a catalog hit on an empty argument list
is the out-of-bounds read. -/
theorem check_expr_receiver_indexing :
    (∀ (cx : LateContext) (e : Expr),
      (∀ call ms elements cs,
        e.kind = ExprKindF.methodCall call ms elements cs → elements ≠ []) →
      (check_expr cx e).isSome = true) ∧
    check_expr exCx exExprNoArgs = none := by
  constructor
  · intro cx e hne
    rcases check_expr_shape cx e with hsh | ⟨call, ms, elements, cs, i, hk, hsh⟩
    · rw [hsh]; rfl
    · have h := hne call ms elements cs hk
      cases elements with
      | nil => exact absurd rfl h
      | cons receiver rest =>
        rw [hsh]
        exact catalogLoop_isSome cx e call receiver rest i catalog
  · decide

/-- Closed instance of C10: the example call with its one-element argument
list returns normally. -/
theorem check_expr_receiver_indexing_witness :
    (check_expr exCx exExpr).isSome = true :=
  check_expr_receiver_indexing.1 exCx exExpr (by
    intro call ms elements cs hk
    simp only [exExpr, Expr.kind] at hk
    injection hk with h1 h2 h3 h4
    subst h3
    simp)

end NoopLint
